import Mathlib

/-!
# Verification of the midi-r3f-piano key-state and input-event pipeline

Shallow embedding of the logic in `src/Experience.jsx` (most recent revision,
the one with per-key MIDI debouncing and tracked/cancelable animations) and,
where a claim references it, the earlier revision (the one with the `isMounted`
liveness flag).

JavaScript numbers that flow through the MIDI handler are modelled as
`Option ℚ`: `some q` is the number `q`; `none` stands for `NaN` or for a
non-numeric value such as `undefined` (arithmetic on it yields `NaN`, any
`<`/`>=` comparison with it is `false`, and `===` against a number literal is
`false`).  This captures exactly the JS semantics the handler exercises:
`undefined - 21` is `NaN`, `NaN < 0`, `NaN >= 88`, `NaN > 0` are all `false`,
and `NaN === 144` / `undefined === 144` are `false`.
-/

namespace MidiPiano

/-- A JavaScript numeric value as seen by the MIDI handler: `some q` is the
number `q`, `none` is `NaN`/`undefined`/another non-numeric value. -/
abbrev JSVal := Option ℚ

/-- JS subtraction by a number constant: non-numbers give `NaN`. -/
def jsub (v : JSVal) (c : ℚ) : JSVal := v.map (fun q => q - c)

/-- JS strict equality `v === c` against a number constant `c`. -/
def jeqn (v : JSVal) (c : ℚ) : Bool := decide (v = some c)

/-- JS comparison `v < c`; `false` when `v` is `NaN`/non-numeric. -/
def jltn (v : JSVal) (c : ℚ) : Bool :=
  match v with
  | some q => decide (q < c)
  | none => false

/-- JS comparison `v >= c`; `false` when `v` is `NaN`/non-numeric. -/
def jgen (v : JSVal) (c : ℚ) : Bool :=
  match v with
  | some q => decide (c ≤ q)
  | none => false

/-- JS comparison `v > c`; `false` when `v` is `NaN`/non-numeric. -/
def jgtn (v : JSVal) (c : ℚ) : Bool :=
  match v with
  | some q => decide (c < q)
  | none => false

/-! ## Animation driver (`animateKey` and the `animationsRef` handle map)

A gsap tween is modelled by its key, its rotation target and whether it is
still live (`alive = false` after `kill()` or natural completion).  Tweens are
kept in an append-only log `tweens` of `(id, tween)` pairs; `handle` is the
`animationsRef.current` map from key index to the id of the tween stored for
that key, and `nextId` generates fresh ids. -/

/-- One gsap tween: the key it animates, the rotation-x target, liveness. -/
structure Tween where
  tkey : JSVal
  target : ℚ
  alive : Bool
deriving DecidableEq, Repr

/-- The animation driver state: `animationsRef.current` (`handle`) plus the
log of every tween ever created. -/
structure AnimDriver where
  nextId : ℕ
  tweens : List (ℕ × Tween)
  handle : JSVal → Option ℕ

/-- `animationsRef.current = {}` at mount. -/
def initAnim : AnimDriver := ⟨0, [], fun _ => none⟩

/-- Mark the tween with identifier `id` as no longer live (a `kill()` call, or
natural completion of the tween). -/
def killId (ts : List (ℕ × Tween)) (id : ℕ) : List (ℕ × Tween) :=
  ts.map (fun p => if p.1 = id then (p.1, { p.2 with alive := false }) else p)

/-- `animateKey(index, down)` from `src/Experience.jsx` (recent revision):
if `keyRefs.current[index]` is absent (`kp index = false`) do nothing;
otherwise kill any tween stored in `animationsRef.current[index]`, start a new
tween toward `0.05` (press) or `0` (release), and store its handle. -/
def animateKey (kp : JSVal → Bool) (a : AnimDriver) (index : JSVal) (down : Bool) : AnimDriver :=
  if kp index = false then a
  else
    let targetX : ℚ := if down then 1/20 else 0
    let ts :=
      match a.handle index with
      | some id => killId a.tweens id
      | none => a.tweens
    { nextId := a.nextId + 1
      tweens := ts ++ [(a.nextId, ⟨index, targetX, true⟩)]
      handle := fun k => if k = index then some a.nextId else a.handle k }

/-- Environment step: a tween finishes on its own (gsap completion); its
handle entry is not removed by the code, the tween is merely no longer live. -/
def completeTween (a : AnimDriver) (id : ℕ) : AnimDriver :=
  { a with tweens := killId a.tweens id }

/-! ## The Experience component state (recent revision) -/

/-- Mutable state of the recent `Experience` revision that the input pipeline
touches: `pressedKeys`, `lastMIDIEventTime.current` (total, with the `|| 0`
default folded in: absent keys read as `0`), and the animation driver. -/
structure ExpState where
  pressed : Finset JSVal
  lastT : JSVal → ℚ
  anim : AnimDriver

/-- Initial state at mount: no pressed keys, no timestamps, no animations. -/
def initExp : ExpState := ⟨∅, fun _ => 0, initAnim⟩

/-- `onKeyDown(index)` from the recent revision: bounds check with JS
semantics (`index < 0 || index >= 88`), idempotent insert into `pressedKeys`,
then `animateKey(index, true)` — unconditionally, pressed or not. -/
def onKeyDown (kp : JSVal → Bool) (s : ExpState) (index : JSVal) : ExpState :=
  if jltn index 0 || jgen index 88 then s
  else
    { s with
      pressed := if index ∈ s.pressed then s.pressed else insert index s.pressed
      anim := animateKey kp s.anim index true }

/-- `onKeyUp(index)` from the recent revision: bounds check, idempotent erase
from `pressedKeys`, then `animateKey(index, false)` — unconditionally. -/
def onKeyUp (kp : JSVal → Bool) (s : ExpState) (index : JSVal) : ExpState :=
  if jltn index 0 || jgen index 88 then s
  else
    { s with
      pressed := if index ∉ s.pressed then s.pressed else s.pressed.erase index
      anim := animateKey kp s.anim index false }

/-- `onMIDIMessage` body from the recent revision, for an array `data` of JS
values arriving at time `now` (`performance.now()`):
`const [command, note, velocity] = event.data` (missing entries read as
`undefined`), `keyIndex = note - 21`, discard via
`if (keyIndex < 0 || keyIndex >= 88) return`, per-key debounce
`if (now - last < 10) return`, record `lastMIDIEventTime.current[keyIndex] =
now`, then dispatch on the command byte. -/
def onMIDIMessage (kp : JSVal → Bool) (s : ExpState) (now : ℚ) (data : List JSVal) : ExpState :=
  let command := data.getD 0 none
  let note := data.getD 1 none
  let velocity := data.getD 2 none
  let keyIndex := jsub note 21
  if jltn keyIndex 0 || jgen keyIndex 88 then s
  else if now - s.lastT keyIndex < 10 then s
  else
    let s' : ExpState := { s with lastT := fun k => if k = keyIndex then now else s.lastT k }
    if jeqn command 144 && jgtn velocity 0 then onKeyDown kp s' keyIndex
    else if jeqn command 128 || (jeqn command 144 && jeqn velocity 0) then onKeyUp kp s' keyIndex
    else s'

/-- The full handler including the `try { ... } catch` wrapper: when
`event.data` is not an array at all (`none` here), destructuring throws and
the `catch` swallows the error, leaving the state unchanged; destructuring an
actual array never throws, whatever its length.  Total, so the handler never
propagates an exception to its caller. -/
def onMIDIMessageRaw (kp : JSVal → Bool) (s : ExpState) (now : ℚ)
    (ev : Option (List JSVal)) : ExpState :=
  match ev with
  | none => s
  | some data => onMIDIMessage kp s now data

/-! ## The MIDI normalizer as a pure function

The command/note/velocity classification shared by both revisions of
`onMIDIMessage`, for genuine numeric bytes, as the spec's `normalizeMIDI`:
`keyIndex = note - 21`, out-of-range discarded, note-on iff
`command === 144 && velocity > 0`, note-off iff
`command === 128 || (command === 144 && velocity === 0)`. -/
def normalizeMIDI (command note velocity : ℤ) : Option (ℤ × Bool) :=
  let keyIndex := note - 21
  if keyIndex < 0 ∨ 88 ≤ keyIndex then none
  else if command = 144 ∧ 0 < velocity then some (keyIndex, true)
  else if command = 128 ∨ (command = 144 ∧ velocity = 0) then some (keyIndex, false)
  else none

/-! ## Claim C1: the MIDI normalizer -/

/-- **C1.** For every raw MIDI 3-byte message `{command, note, velocity}`, the
normalizer computes `keyIndex = note - 21` and discards the message when
`keyIndex` is outside `[0,88)`; otherwise it emits a press event iff
`command = 144 ∧ velocity > 0` and a release event iff
`command = 128 ∨ (command = 144 ∧ velocity = 0)`; in particular
`{144,60,1} ↦ (39, down)`, `{128,60,0}` and `{144,60,0}` `↦ (39, up)`, and
`{144,20,100}` is ignored. -/
theorem c1_normalize_midi (c n v : ℤ) :
    ((n - 21 < 0 ∨ 88 ≤ n - 21) → normalizeMIDI c n v = none) ∧
    (0 ≤ n - 21 → n - 21 < 88 →
      ((normalizeMIDI c n v = some (n - 21, true) ↔ (c = 144 ∧ 0 < v)) ∧
       (normalizeMIDI c n v = some (n - 21, false) ↔ (c = 128 ∨ (c = 144 ∧ v = 0))))) ∧
    normalizeMIDI 144 60 1 = some (39, true) ∧
    normalizeMIDI 128 60 0 = some (39, false) ∧
    normalizeMIDI 144 60 0 = some (39, false) ∧
    normalizeMIDI 144 20 100 = none := by
  refine ⟨?_, ?_, by decide, by decide, by decide, by decide⟩
  · intro h
    unfold normalizeMIDI
    simp only [if_pos h]
  · intro h0 h88
    unfold normalizeMIDI
    have hrange : ¬ (n - 21 < 0 ∨ 88 ≤ n - 21) := by omega
    simp only [if_neg hrange]
    constructor
    · constructor
      · intro h
        split_ifs at h with h1 h2 <;> simp_all
      · intro h
        simp only [if_pos h]
    · constructor
      · intro h
        split_ifs at h with h1 h2 <;> simp_all
      · intro h
        have h1 : ¬ (c = 144 ∧ 0 < v) := by rcases h with h | ⟨h, hv⟩ <;> omega
        simp only [if_neg h1, if_pos h]

/-- Witness for C1 at the concrete in-range message `{144, 60, 1}`. -/
theorem c1_witness :
    (0 ≤ (60 : ℤ) - 21 ∧ (60 : ℤ) - 21 < 88) ∧
    (normalizeMIDI 144 60 1 = some ((60 : ℤ) - 21, true) ↔ ((144 : ℤ) = 144 ∧ (0 : ℤ) < 1)) :=
  ⟨by decide, ((c1_normalize_midi 144 60 1).2.1 (by decide) (by decide)).1⟩

/-! ## Claim C2: PressedSet replay

The Key-State Store projection of `onKeyDown`/`onKeyUp` (recent revision):
the `setPressedKeys` updaters.  A normalized event carries a key index in
`[0,88)` (`Fin 88`), so the bounds guard `index < 0 || index >= 88` of
`onKeyDown`/`onKeyUp` never fires and is omitted here. -/

/-- A normalized input event: key index in `[0,88)`, pressed (`down = true`)
or released. -/
structure NEvent where
  keyIndex : Fin 88
  down : Bool
deriving DecidableEq, Repr

/-- The `setPressedKeys` updater of `onKeyDown` (`if (prev.has(index)) return
prev` then `add`) and of `onKeyUp` (`if (!prev.has(index)) return prev` then
`delete`), selected by the event direction. -/
def applyEvent (s : Finset ℕ) (e : NEvent) : Finset ℕ :=
  if e.down then (if e.keyIndex.val ∈ s then s else insert e.keyIndex.val s)
  else (if e.keyIndex.val ∉ s then s else s.erase e.keyIndex.val)

/-- Replaying a list of normalized events against the initially empty
`pressedKeys` set. -/
def replay (es : List NEvent) : Finset ℕ := es.foldl applyEvent ∅

/-- The direction of the last event for key `k` in `es`, if any. -/
def lastEventDown (es : List NEvent) (k : ℕ) : Option Bool :=
  es.foldl (fun acc e => if e.keyIndex.val = k then some e.down else acc) none

theorem mem_applyEvent (s : Finset ℕ) (e : NEvent) (k : ℕ) :
    k ∈ applyEvent s e ↔
      ((e.keyIndex.val = k ∧ e.down = true) ∨ (e.keyIndex.val ≠ k ∧ k ∈ s)) := by
  obtain ⟨i, d⟩ := e
  unfold applyEvent
  dsimp only
  cases d
  · by_cases hk : i.val = k
    · subst hk
      by_cases hm : i.val ∈ s <;> simp [hm]
    · by_cases hm : i.val ∈ s <;> simp [hm, hk, Finset.mem_erase, Ne.symm hk]
  · by_cases hk : i.val = k
    · subst hk
      by_cases hm : i.val ∈ s <;> simp [hm]
    · by_cases hm : i.val ∈ s <;> simp [hm, hk, Finset.mem_insert, Ne.symm hk]

theorem lastEventDown_foldl (k : ℕ) (es : List NEvent) (a : Option Bool) :
    es.foldl (fun acc e => if e.keyIndex.val = k then some e.down else acc) a
      = (lastEventDown es k).elim a some := by
  induction es generalizing a with
  | nil => simp [lastEventDown]
  | cons e es ih =>
    have hl : lastEventDown (e :: es) k
        = es.foldl (fun acc e => if e.keyIndex.val = k then some e.down else acc)
            (if e.keyIndex.val = k then some e.down else none) := by
      simp [lastEventDown]
    rw [List.foldl_cons, ih, hl, ih]
    rcases h : lastEventDown es k with _ | d
    · by_cases hk : e.keyIndex.val = k <;> simp [hk]
    · simp

theorem lastEventDown_cons (e : NEvent) (es : List NEvent) (k : ℕ) :
    lastEventDown (e :: es) k
      = (lastEventDown es k).elim (if e.keyIndex.val = k then some e.down else none) some := by
  unfold lastEventDown
  simp only [List.foldl_cons]
  exact lastEventDown_foldl k es _

theorem mem_foldl_applyEvent (es : List NEvent) (s : Finset ℕ) (k : ℕ) :
    k ∈ es.foldl applyEvent s ↔
      (lastEventDown es k = some true ∨ (lastEventDown es k = none ∧ k ∈ s)) := by
  induction es generalizing s with
  | nil => simp [lastEventDown]
  | cons e es ih =>
    simp only [List.foldl_cons]
    rw [ih, lastEventDown_cons]
    rcases h : lastEventDown es k with _ | d
    · simp only [Option.elim_none]
      by_cases hk : e.keyIndex.val = k
      · simp [hk, mem_applyEvent]
      · simp [hk, mem_applyEvent, Ne.symm]
    · simp [Option.elim_some]

/-- **C2.** Replaying any finite sequence of normalized press/release events
against the initially empty PressedSet yields exactly the set of key indices
whose last event was a press; a press of an already-pressed key and a release
of an already-released key leave the set untouched; and (being a `Finset`,
exactly as the JS `Set`) each index occurs at most once. -/
theorem c2_replay_last_press (es : List NEvent) (k : ℕ) :
    (k ∈ replay es ↔ lastEventDown es k = some true) ∧
    (∀ (s : Finset ℕ) (e : NEvent),
      (e.down = true → e.keyIndex.val ∈ s → applyEvent s e = s) ∧
      (e.down = false → e.keyIndex.val ∉ s → applyEvent s e = s)) ∧
    (replay es).val.Nodup := by
  refine ⟨?_, ?_, (replay es).nodup⟩
  · unfold replay
    rw [mem_foldl_applyEvent]
    simp
  · intro s e
    constructor
    · intro hd hm
      unfold applyEvent
      simp [hd, hm]
    · intro hd hm
      unfold applyEvent
      simp [hd, hm]

/-- Witness for C2 on the concrete sequence press 39, press 39 (redundant),
press 40, release 39: key 39 ends released, key 40 ends pressed. -/
theorem c2_witness :
    (39 ∈ replay [⟨⟨39, by decide⟩, true⟩, ⟨⟨39, by decide⟩, true⟩,
        ⟨⟨40, by decide⟩, true⟩, ⟨⟨39, by decide⟩, false⟩] ↔
      lastEventDown [⟨⟨39, by decide⟩, true⟩, ⟨⟨39, by decide⟩, true⟩,
        ⟨⟨40, by decide⟩, true⟩, ⟨⟨39, by decide⟩, false⟩] 39 = some true) ∧
    (39 ∉ replay [⟨⟨39, by decide⟩, true⟩, ⟨⟨39, by decide⟩, true⟩,
        ⟨⟨40, by decide⟩, true⟩, ⟨⟨39, by decide⟩, false⟩]) := by
  refine ⟨(c2_replay_last_press _ 39).1, ?_⟩
  rw [(c2_replay_last_press _ 39).1]
  decide

/-! ## Evaluation lemmas for the JS handlers on numeric input -/

theorem jltn_false {q c : ℚ} (h : c ≤ q) : jltn (some q) c = false := by
  simp only [jltn, decide_eq_false_iff_not, not_lt]
  exact h

theorem jgen_false {q c : ℚ} (h : q < c) : jgen (some q) c = false := by
  simp only [jgen, decide_eq_false_iff_not, not_le]
  exact h

/-- `onKeyDown` never reads or writes the debounce map. -/
theorem onKeyDown_lastT (kp : JSVal → Bool) (s : ExpState) (idx : JSVal) :
    (onKeyDown kp s idx).lastT = s.lastT := by
  unfold onKeyDown
  split <;> rfl

/-- `onKeyUp` never reads or writes the debounce map. -/
theorem onKeyUp_lastT (kp : JSVal → Bool) (s : ExpState) (idx : JSVal) :
    (onKeyUp kp s idx).lastT = s.lastT := by
  unfold onKeyUp
  split <;> rfl

/-- Pressed-set effect of `onKeyDown` at an in-range numeric index. -/
theorem onKeyDown_pressed (kp : JSVal → Bool) (s : ExpState) {q : ℚ}
    (h0 : 0 ≤ q) (h88 : q < 88) :
    (onKeyDown kp s (some q)).pressed = insert (some q) s.pressed := by
  unfold onKeyDown
  rw [jltn_false h0, jgen_false h88]
  by_cases hm : (some q) ∈ s.pressed <;> simp [hm, Finset.insert_eq_self]

/-- Pressed-set effect of `onKeyUp` at an in-range numeric index. -/
theorem onKeyUp_pressed (kp : JSVal → Bool) (s : ExpState) {q : ℚ}
    (h0 : 0 ≤ q) (h88 : q < 88) :
    (onKeyUp kp s (some q)).pressed = s.pressed.erase (some q) := by
  unfold onKeyUp
  rw [jltn_false h0, jgen_false h88]
  by_cases hm : (some q) ∈ s.pressed <;> simp [hm, Finset.erase_eq_self]

/-- Animation effect of `onKeyDown` at an in-range numeric index. -/
theorem onKeyDown_anim (kp : JSVal → Bool) (s : ExpState) {q : ℚ}
    (h0 : 0 ≤ q) (h88 : q < 88) :
    (onKeyDown kp s (some q)).anim = animateKey kp s.anim (some q) true := by
  unfold onKeyDown
  rw [jltn_false h0, jgen_false h88]
  simp

/-- Animation effect of `onKeyUp` at an in-range numeric index. -/
theorem onKeyUp_anim (kp : JSVal → Bool) (s : ExpState) {q : ℚ}
    (h0 : 0 ≤ q) (h88 : q < 88) :
    (onKeyUp kp s (some q)).anim = animateKey kp s.anim (some q) false := by
  unfold onKeyUp
  rw [jltn_false h0, jgen_false h88]
  simp

/-- `onMIDIMessage` on a well-formed numeric 3-byte message whose key index
`n - 21` is in `[0,88)`: the bounds guard passes and the handler reduces to
the debounce check followed by the command dispatch. -/
theorem onMIDIMessage_wf (kp : JSVal → Bool) (s : ExpState) (now c n v : ℚ)
    (h0 : 0 ≤ n - 21) (h88 : n - 21 < 88) :
    onMIDIMessage kp s now [some c, some n, some v] =
      if now - s.lastT (some (n - 21)) < 10 then s
      else
        if c = 144 ∧ 0 < v then
          onKeyDown kp { s with lastT := fun k => if k = some (n - 21) then now else s.lastT k }
            (some (n - 21))
        else if c = 128 ∨ (c = 144 ∧ v = 0) then
          onKeyUp kp { s with lastT := fun k => if k = some (n - 21) then now else s.lastT k }
            (some (n - 21))
        else { s with lastT := fun k => if k = some (n - 21) then now else s.lastT k } := by
  unfold onMIDIMessage
  simp only [List.getD_cons_zero, List.getD_cons_succ, jsub, Option.map_some']
  rw [jltn_false h0, jgen_false h88]
  simp only [Bool.or_self, Bool.false_eq_true, if_false, jeqn, jgtn, Option.some.injEq,
    Bool.and_eq_true, Bool.or_eq_true, decide_eq_true_eq]

/-- Key-ref table used by the concrete witnesses: `keyRefs.current` holds a
mesh at every in-range key index (and `keyRefs.current[NaN]` is `undefined`). -/
def kpAll : JSVal → Bool := fun v => jgen v 0 && jltn v 88

/-! ## Claim C3: per-key 10 ms MIDI debounce -/

/-- **C3.** For a numeric MIDI message whose key index `n - 21` is in
`[0,88)`: if it arrives strictly less than 10 ms after the previous accepted
event for that key it is rejected outright (the state — set, debounce map and
animations — is unchanged); at 10 ms or more it is accepted (the key's
timestamp becomes `now` and a note-on inserts / a note-off erases the key).
Processing it never touches any other key's debounce entry, and
pointer-derived events (`onKeyDown`/`onKeyUp` called directly) neither read
nor write the debounce map: their effect is the same whatever the map holds. -/
theorem c3_midi_debounce (kp : JSVal → Bool) (s : ExpState) (now c n v : ℚ)
    (h0 : 0 ≤ n - 21) (h88 : n - 21 < 88) :
    (now - s.lastT (some (n - 21)) < 10 →
      onMIDIMessage kp s now [some c, some n, some v] = s) ∧
    (10 ≤ now - s.lastT (some (n - 21)) →
      ((onMIDIMessage kp s now [some c, some n, some v]).lastT (some (n - 21)) = now ∧
       (c = 144 → 0 < v →
         (onMIDIMessage kp s now [some c, some n, some v]).pressed
           = insert (some (n - 21)) s.pressed) ∧
       (c = 128 →
         (onMIDIMessage kp s now [some c, some n, some v]).pressed
           = s.pressed.erase (some (n - 21))))) ∧
    (∀ k' : JSVal, k' ≠ some (n - 21) →
      (onMIDIMessage kp s now [some c, some n, some v]).lastT k' = s.lastT k') ∧
    (∀ idx : JSVal,
      (onKeyDown kp s idx).lastT = s.lastT ∧ (onKeyUp kp s idx).lastT = s.lastT ∧
      ∀ f : JSVal → ℚ,
        (onKeyDown kp { s with lastT := f } idx).pressed = (onKeyDown kp s idx).pressed ∧
        (onKeyUp kp { s with lastT := f } idx).pressed = (onKeyUp kp s idx).pressed ∧
        (onKeyDown kp { s with lastT := f } idx).anim = (onKeyDown kp s idx).anim ∧
        (onKeyUp kp { s with lastT := f } idx).anim = (onKeyUp kp s idx).anim) := by
  refine ⟨?_, ?_, ?_, ?_⟩
  · intro h
    rw [onMIDIMessage_wf kp s now c n v h0 h88, if_pos h]
  · intro h
    rw [onMIDIMessage_wf kp s now c n v h0 h88, if_neg (not_lt.mpr h)]
    refine ⟨?_, ?_, ?_⟩
    · split_ifs with h1 h2
      · rw [onKeyDown_lastT]
        simp
      · rw [onKeyUp_lastT]
        simp
      · simp
    · intro hc hv
      rw [if_pos ⟨hc, hv⟩, onKeyDown_pressed kp _ h0 h88]
    · intro hc
      have hno : ¬(c = 144 ∧ 0 < v) := by
        rintro ⟨h144, -⟩
        rw [hc] at h144
        norm_num at h144
      rw [if_neg hno, if_pos (Or.inl hc), onKeyUp_pressed kp _ h0 h88]
  · intro k' hk'
    rw [onMIDIMessage_wf kp s now c n v h0 h88]
    split_ifs with h1 h2 h3
    · rfl
    · rw [onKeyDown_lastT]
      simp [hk']
    · rw [onKeyUp_lastT]
      simp [hk']
    · simp [hk']
  · intro idx
    refine ⟨onKeyDown_lastT kp s idx, onKeyUp_lastT kp s idx, ?_⟩
    intro f
    refine ⟨?_, ?_, ?_, ?_⟩
    · by_cases hg : (jltn idx 0 || jgen idx 88) = true <;> simp [onKeyDown, hg]
    · by_cases hg : (jltn idx 0 || jgen idx 88) = true <;> simp [onKeyUp, hg]
    · by_cases hg : (jltn idx 0 || jgen idx 88) = true <;> simp [onKeyDown, hg]
    · by_cases hg : (jltn idx 0 || jgen idx 88) = true <;> simp [onKeyUp, hg]

/-- Witness for C3: a note-on for key 39 accepted at `t = 100` makes an
identical note-on at `t = 105` (5 ms later) a no-op. -/
theorem c3_witness :
    ((105 : ℚ) - (onMIDIMessage kpAll initExp 100 [some 144, some 60, some 80]).lastT
        (some ((60 : ℚ) - 21)) < 10) ∧
    onMIDIMessage kpAll (onMIDIMessage kpAll initExp 100 [some 144, some 60, some 80]) 105
        [some 144, some 60, some 80]
      = onMIDIMessage kpAll initExp 100 [some 144, some 60, some 80] := by
  have h0 : (0 : ℚ) ≤ 60 - 21 := by norm_num
  have h88 : (60 : ℚ) - 21 < 88 := by norm_num
  have hacc : (10 : ℚ) ≤ 100 - initExp.lastT (some ((60 : ℚ) - 21)) := by
    norm_num [initExp]
  have hT := ((c3_midi_debounce kpAll initExp 100 144 60 80 h0 h88).2.1 hacc).1
  have hlt : (105 : ℚ) - (onMIDIMessage kpAll initExp 100 [some 144, some 60, some 80]).lastT
      (some ((60 : ℚ) - 21)) < 10 := by
    rw [hT]
    norm_num
  exact ⟨hlt, (c3_midi_debounce kpAll _ 105 144 60 80 h0 h88).1 hlt⟩

/-! ## Claim C10: non-note messages still stamp the debounce map -/

/-- **C10.** A numeric MIDI message with in-range key index that passes the
debounce check updates the per-key timestamp to `now` even when its command
is neither 128 nor 144 — no press or release happens (`pressed` and the
animations are untouched) — and as a consequence any message for the same key
arriving strictly less than 10 ms later (in particular a legitimate note-on
or note-off) is dropped. -/
theorem c10_nonnote_stamps_debounce (kp : JSVal → Bool) (s : ExpState) (now c n v : ℚ)
    (h0 : 0 ≤ n - 21) (h88 : n - 21 < 88)
    (hacc : 10 ≤ now - s.lastT (some (n - 21))) (hc1 : c ≠ 128) (hc2 : c ≠ 144) :
    (onMIDIMessage kp s now [some c, some n, some v]).pressed = s.pressed ∧
    (onMIDIMessage kp s now [some c, some n, some v]).anim = s.anim ∧
    (onMIDIMessage kp s now [some c, some n, some v]).lastT (some (n - 21)) = now ∧
    (∀ now' c' v' : ℚ, now' - now < 10 →
      onMIDIMessage kp (onMIDIMessage kp s now [some c, some n, some v]) now'
          [some c', some n, some v']
        = onMIDIMessage kp s now [some c, some n, some v]) := by
  have hr : onMIDIMessage kp s now [some c, some n, some v]
      = { s with lastT := fun k => if k = some (n - 21) then now else s.lastT k } := by
    rw [onMIDIMessage_wf kp s now c n v h0 h88, if_neg (not_lt.mpr hacc),
      if_neg (fun h => hc2 h.1),
      if_neg (show ¬(c = 128 ∨ (c = 144 ∧ v = 0)) by
        rintro (h | ⟨h, -⟩)
        exacts [hc1 h, hc2 h])]
  rw [hr]
  refine ⟨rfl, rfl, by simp, ?_⟩
  intro now' c' v' hlt
  rw [onMIDIMessage_wf kp _ now' c' n v' h0 h88]
  have hT : ({ s with lastT := fun k => if k = some (n - 21) then now else s.lastT k }
      : ExpState).lastT (some (n - 21)) = now := by simp
  rw [hT, if_pos hlt]

/-- Witness for C10: a control-change-style message (command 176) for key 39
at `t = 100` stamps the debounce map, so a real note-on for key 39 at
`t = 105` is dropped. -/
theorem c10_witness :
    ((176 : ℚ) ≠ 128 ∧ (176 : ℚ) ≠ 144 ∧
      (10 : ℚ) ≤ 100 - initExp.lastT (some ((60 : ℚ) - 21))) ∧
    onMIDIMessage kpAll (onMIDIMessage kpAll initExp 100 [some 176, some 60, some 0]) 105
        [some 144, some 60, some 80]
      = onMIDIMessage kpAll initExp 100 [some 176, some 60, some 0] := by
  have h0 : (0 : ℚ) ≤ 60 - 21 := by norm_num
  have h88 : (60 : ℚ) - 21 < 88 := by norm_num
  have hacc : (10 : ℚ) ≤ 100 - initExp.lastT (some ((60 : ℚ) - 21)) := by
    norm_num [initExp]
  have hc1 : (176 : ℚ) ≠ 128 := by norm_num
  have hc2 : (176 : ℚ) ≠ 144 := by norm_num
  exact ⟨⟨hc1, hc2, hacc⟩,
    (c10_nonnote_stamps_debounce kpAll initExp 100 176 60 0 h0 h88 hacc hc1 hc2).2.2.2
      105 144 80 (by norm_num)⟩

/-! ## Claim C4: redundant events and the animation driver

The claim says a redundant press/release "emits no delta: PressedSet is
unchanged and neither the Animation Driver nor the rendering surface is
invoked".  In the code the idempotence check lives inside the
`setPressedKeys` updater only; `animateKey` is called unconditionally on
every in-range `onKeyDown`/`onKeyUp`, so the animation driver *is* invoked
on a redundant event. -/

/-- What `animateKey` does when the key ref is present: a fresh tween id is
allocated, the new tween (toward `0.05` on press, `0` on release) is appended
live, and the handle for the key now stores the fresh id. -/
theorem animateKey_present (kp : JSVal → Bool) (a : AnimDriver) (idx : JSVal) (d : Bool)
    (h : kp idx = true) :
    (animateKey kp a idx d).nextId = a.nextId + 1 ∧
    (animateKey kp a idx d).handle idx = some a.nextId ∧
    (a.nextId, (⟨idx, if d then 1/20 else 0, true⟩ : Tween)) ∈ (animateKey kp a idx d).tweens := by
  unfold animateKey
  rw [h]
  simp

/-- `kpAll` holds at key index 39. -/
theorem kpAll_39 : kpAll (some (39 : ℚ)) = true := by
  simp only [kpAll, jgen, jltn, Bool.and_eq_true, decide_eq_true_eq]
  norm_num

/-- Concrete state for the C4 counterexample: key 39 already pressed, no
animation yet recorded. -/
def sC4 : ExpState := { pressed := {some 39}, lastT := fun _ => 0, anim := initAnim }

/-- **C4 counterexample.** Pressing key 39 when it is already in PressedSet
leaves PressedSet unchanged, yet the animation driver *is* invoked: a new
tween handle is allocated (`nextId` goes from 0 to 1), contradicting the
claim that a redundant press "emits no delta ... neither the Animation
Driver nor the rendering surface is invoked". -/
theorem c4_counterexample :
    (onKeyDown kpAll sC4 (some 39)).pressed = sC4.pressed ∧
    (onKeyDown kpAll sC4 (some 39)).anim.nextId = 1 ∧ sC4.anim.nextId = 0 := by
  refine ⟨?_, ?_, rfl⟩
  · rw [onKeyDown_pressed kpAll sC4 (by norm_num) (by norm_num)]
    simp [sC4]
  · rw [onKeyDown_anim kpAll sC4 (by norm_num) (by norm_num)]
    rw [(animateKey_present kpAll sC4.anim (some 39) true kpAll_39).1]
    rfl

/-- **C4 (amended).** Applying a press for a key already in PressedSet, or a
release for a key not in PressedSet, leaves PressedSet unchanged (the store
is idempotent), but the Animation Driver is still invoked: `animateKey` runs
unconditionally for every in-range event with a present key ref, allocating a
fresh tween (press target `0.05`, release target `0`) and replacing the
stored handle.  Only the PressedSet mutation is suppressed on redundancy. -/
theorem c4_redundant_events (kp : JSVal → Bool) (s : ExpState) (q : ℚ)
    (h0 : 0 ≤ q) (h88 : q < 88) (hkp : kp (some q) = true) :
    (some q ∈ s.pressed →
      (onKeyDown kp s (some q)).pressed = s.pressed ∧
      (onKeyDown kp s (some q)).anim.nextId = s.anim.nextId + 1 ∧
      (onKeyDown kp s (some q)).anim.handle (some q) = some s.anim.nextId ∧
      (s.anim.nextId, (⟨some q, 1/20, true⟩ : Tween)) ∈ (onKeyDown kp s (some q)).anim.tweens) ∧
    (some q ∉ s.pressed →
      (onKeyUp kp s (some q)).pressed = s.pressed ∧
      (onKeyUp kp s (some q)).anim.nextId = s.anim.nextId + 1 ∧
      (onKeyUp kp s (some q)).anim.handle (some q) = some s.anim.nextId ∧
      (s.anim.nextId, (⟨some q, 0, true⟩ : Tween)) ∈ (onKeyUp kp s (some q)).anim.tweens) := by
  constructor
  · intro hm
    have ha := animateKey_present kp s.anim (some q) true hkp
    rw [onKeyDown_pressed kp s h0 h88, onKeyDown_anim kp s h0 h88]
    exact ⟨Finset.insert_eq_self.mpr hm, ha.1, ha.2.1, ha.2.2⟩
  · intro hm
    have ha := animateKey_present kp s.anim (some q) false hkp
    rw [onKeyUp_pressed kp s h0 h88, onKeyUp_anim kp s h0 h88]
    exact ⟨Finset.erase_eq_self.mpr hm, ha.1, ha.2.1, ha.2.2⟩

/-- Witness for the amended C4 at the concrete state `sC4` (key 39 pressed). -/
theorem c4_witness :
    (some (39 : ℚ) ∈ sC4.pressed) ∧
    (onKeyDown kpAll sC4 (some 39)).pressed = sC4.pressed ∧
    (onKeyDown kpAll sC4 (some 39)).anim.nextId = sC4.anim.nextId + 1 := by
  have hm : some (39 : ℚ) ∈ sC4.pressed := by simp [sC4]
  have h := (c4_redundant_events kpAll sC4 39 (by norm_num) (by norm_num) kpAll_39).1 hm
  exact ⟨hm, h.1, h.2.1⟩

/-! ## Claim C5: at most one live tween per key -/

/-- Operations that touch the animation driver during a session: a key event
reaching `animateKey`, or a tween finishing on its own (gsap completion). -/
inductive AnimOp where
  | anim (k : JSVal) (down : Bool)
  | complete (id : ℕ)

/-- One animation-driver step. -/
def animStep (kp : JSVal → Bool) (a : AnimDriver) : AnimOp → AnimDriver
  | .anim k d => animateKey kp a k d
  | .complete id => completeTween a id

/-- The animation driver reached from mount by a sequence of operations. -/
def runAnim (kp : JSVal → Bool) (ops : List AnimOp) : AnimDriver :=
  ops.foldl (animStep kp) initAnim

/-- The live tweens currently recorded for key `k`. -/
def aliveTweensFor (a : AnimDriver) (k : JSVal) : List (ℕ × Tween) :=
  a.tweens.filter (fun p => p.2.alive && decide (p.2.tkey = k))

/-- Structural invariant of the animation driver: tween ids are bounded by
`nextId` and pairwise distinct, and every live tween is the one its key's
stored handle points to. -/
def GoodAnim (a : AnimDriver) : Prop :=
  (∀ p ∈ a.tweens, p.1 < a.nextId) ∧
  (a.tweens.map Prod.fst).Nodup ∧
  (∀ p ∈ a.tweens, p.2.alive = true → a.handle p.2.tkey = some p.1)

theorem goodAnim_init : GoodAnim initAnim := by
  refine ⟨?_, ?_, ?_⟩ <;> simp [initAnim]

theorem killId_map_fst (ts : List (ℕ × Tween)) (id : ℕ) :
    (killId ts id).map Prod.fst = ts.map Prod.fst := by
  unfold killId
  rw [List.map_map]
  apply List.map_congr_left
  intro p hp
  by_cases h : p.1 = id <;> simp [h]

/-- A tween still live after `killId` was already in the list and is not the
killed one. -/
theorem alive_mem_killId {ts : List (ℕ × Tween)} {id : ℕ} {p : ℕ × Tween}
    (hp : p ∈ killId ts id) (ha : p.2.alive = true) : p ∈ ts ∧ p.1 ≠ id := by
  unfold killId at hp
  rcases List.mem_map.mp hp with ⟨p0, hp0, he⟩
  by_cases h : p0.1 = id
  · rw [if_pos h] at he
    rw [← he] at ha
    simp at ha
  · rw [if_neg h] at he
    subst he
    exact ⟨hp0, h⟩

/-- Appending a fresh live tween for `idx` to a list `ts` in which no live
tween animates `idx` (and whose ids are those of `a.tweens`) preserves the
driver invariant. -/
theorem goodAnim_extend (a : AnimDriver) (idx : JSVal) (tx : ℚ)
    (ts : List (ℕ × Tween))
    (hfst : ts.map Prod.fst = a.tweens.map Prod.fst)
    (halive : ∀ p ∈ ts, p.2.alive = true → p ∈ a.tweens ∧ p.2.tkey ≠ idx)
    (hg : GoodAnim a) :
    GoodAnim { nextId := a.nextId + 1
               tweens := ts ++ [(a.nextId, ⟨idx, tx, true⟩)]
               handle := fun k => if k = idx then some a.nextId else a.handle k } := by
  obtain ⟨hbound, hnodup, hhandle⟩ := hg
  have hmem_fst : ∀ p ∈ ts, p.1 < a.nextId := by
    intro p hp
    have h1 : p.1 ∈ ts.map Prod.fst := List.mem_map_of_mem _ hp
    rw [hfst] at h1
    rcases List.mem_map.mp h1 with ⟨p0, hp0, hf⟩
    rw [← hf]
    exact hbound p0 hp0
  refine ⟨?_, ?_, ?_⟩
  · intro p hp
    rcases List.mem_append.mp hp with hp | hp
    · exact Nat.lt_succ_of_lt (hmem_fst p hp)
    · rw [List.mem_singleton.mp hp]
      exact Nat.lt_succ_self _
  · rw [List.map_append, hfst]
    rw [List.nodup_append]
    refine ⟨hnodup, List.nodup_singleton _, ?_⟩
    intro x hx hx'
    simp only [List.map_cons, List.map_nil, List.mem_singleton] at hx'
    subst hx'
    rcases List.mem_map.mp hx with ⟨p0, hp0, hf⟩
    exact absurd (hf ▸ hbound p0 hp0) (lt_irrefl _)
  · intro p hp hal
    rcases List.mem_append.mp hp with hp | hp
    · obtain ⟨hmem, hne⟩ := halive p hp hal
      simp only [if_neg hne]
      exact hhandle p hmem hal
    · rw [List.mem_singleton.mp hp]
      simp

theorem goodAnim_animateKey (kp : JSVal → Bool) (a : AnimDriver) (idx : JSVal) (d : Bool)
    (h : GoodAnim a) : GoodAnim (animateKey kp a idx d) := by
  unfold animateKey
  by_cases hkp : kp idx = false
  · rw [if_pos hkp]
    exact h
  · rw [if_neg hkp]
    rcases hh : a.handle idx with _ | id
    · simp only
      refine goodAnim_extend a idx _ a.tweens rfl ?_ h
      intro p hp hal
      refine ⟨hp, fun hk => ?_⟩
      have := h.2.2 p hp hal
      rw [hk, hh] at this
      exact Option.noConfusion this
    · simp only
      refine goodAnim_extend a idx _ (killId a.tweens id) (killId_map_fst _ _) ?_ h
      intro p hp hal
      obtain ⟨hmem, hne⟩ := alive_mem_killId hp hal
      refine ⟨hmem, fun hk => ?_⟩
      have := h.2.2 p hmem hal
      rw [hk, hh] at this
      exact hne (Option.some.inj this).symm

theorem goodAnim_complete (a : AnimDriver) (id : ℕ) (h : GoodAnim a) :
    GoodAnim (completeTween a id) := by
  obtain ⟨hbound, hnodup, hhandle⟩ := h
  unfold completeTween
  refine ⟨?_, ?_, ?_⟩
  · intro p hp
    have h1 : p.1 ∈ (killId a.tweens id).map Prod.fst := List.mem_map_of_mem _ hp
    rw [killId_map_fst] at h1
    rcases List.mem_map.mp h1 with ⟨p0, hp0, hf⟩
    rw [← hf]
    exact hbound p0 hp0
  · rw [killId_map_fst]
    exact hnodup
  · intro p hp hal
    obtain ⟨hmem, -⟩ := alive_mem_killId hp hal
    exact hhandle p hmem hal

/-- Every reachable animation-driver state satisfies the invariant. -/
theorem goodAnim_run (kp : JSVal → Bool) (ops : List AnimOp) : GoodAnim (runAnim kp ops) := by
  unfold runAnim
  have H : ∀ (l : List AnimOp) (a : AnimDriver), GoodAnim a → GoodAnim (l.foldl (animStep kp) a) := by
    intro l
    induction l with
    | nil => exact fun a h => h
    | cons op l ih =>
      intro a h
      rw [List.foldl_cons]
      refine ih _ ?_
      cases op with
      | anim k d => exact goodAnim_animateKey kp a k d h
      | complete id => exact goodAnim_complete a id h
  exact H ops initAnim goodAnim_init

/-- Under the invariant, at most one tween per key is live. -/
theorem goodAnim_aliveFor_le_one (a : AnimDriver) (h : GoodAnim a) (k : JSVal) :
    (aliveTweensFor a k).length ≤ 1 := by
  obtain ⟨-, hnodup, hhandle⟩ := h
  rcases hl : aliveTweensFor a k with _ | ⟨p, _ | ⟨q, l⟩⟩
  · simp
  · simp
  · exfalso
    have hsub : (aliveTweensFor a k).Sublist a.tweens := List.filter_sublist _
    have hnd : ((aliveTweensFor a k).map Prod.fst).Nodup :=
      (hsub.map Prod.fst).nodup hnodup
    have hp : p ∈ aliveTweensFor a k := by rw [hl]; exact List.mem_cons_self _ _
    have hq : q ∈ aliveTweensFor a k := by rw [hl]; simp
    have hpc := List.of_mem_filter hp
    have hqc := List.of_mem_filter hq
    simp only [Bool.and_eq_true, decide_eq_true_eq] at hpc hqc
    have hpm : p ∈ a.tweens := List.mem_of_mem_filter hp
    have hqm : q ∈ a.tweens := List.mem_of_mem_filter hq
    have h1 := hhandle p hpm hpc.1
    have h2 := hhandle q hqm hqc.1
    rw [hpc.2] at h1
    rw [hqc.2] at h2
    have hid : p.1 = q.1 := Option.some.inj (h1.symm.trans h2)
    rw [hl] at hnd
    simp only [List.map_cons, List.nodup_cons, List.mem_cons, List.mem_map] at hnd
    exact hnd.1 (Or.inl hid)

/-- Effect of `animateKey` on its own key's live tweens: exactly the fresh
tween remains live (the previous one, if any, was killed synchronously before
the new handle was stored). -/
theorem aliveTweensFor_animateKey (kp : JSVal → Bool) (a : AnimDriver) (k : JSVal) (d : Bool)
    (h : GoodAnim a) (hkp : kp k = true) :
    aliveTweensFor (animateKey kp a k d)  k
      = [(a.nextId, ⟨k, if d then 1/20 else 0, true⟩)] := by
  obtain ⟨-, -, hhandle⟩ := h
  unfold animateKey
  rw [hkp]
  simp only [Bool.true_eq_false, if_false]
  unfold aliveTweensFor
  simp only
  rw [List.filter_append]
  have hts : (match a.handle k with
      | some id => killId a.tweens id
      | none => a.tweens).filter
        (fun p : ℕ × Tween => p.2.alive && decide (p.2.tkey = k)) = [] := by
    rcases hh : a.handle k with _ | id
    · simp only
      rw [List.filter_eq_nil_iff]
      intro p hp
      simp only [Bool.and_eq_true, decide_eq_true_eq, not_and]
      intro hal hk
      have := hhandle p hp hal
      rw [hk, hh] at this
      exact Option.noConfusion this
    · simp only
      rw [List.filter_eq_nil_iff]
      intro p hp
      simp only [Bool.and_eq_true, decide_eq_true_eq, not_and]
      intro hal hk
      obtain ⟨hmem, hne⟩ := alive_mem_killId hp hal
      have := hhandle p hmem hal
      rw [hk, hh] at this
      exact hne (Option.some.inj this).symm
  rw [hts]
  simp

/-- **C5.** In every animation-driver state reachable from mount (any mix of
key events and tween completions), at most one tween per key index is live;
and a press immediately followed by a release on the same key — before the
press tween completes — leaves exactly one live tween for that key: the
release tween (target angle 0), carrying the id allocated after the press. -/
theorem c5_at_most_one_live (kp : JSVal → Bool) (ops : List AnimOp) (k : JSVal)
    (hkp : kp k = true) :
    (∀ k' : JSVal, (aliveTweensFor (runAnim kp ops) k').length ≤ 1) ∧
    aliveTweensFor (animateKey kp (animateKey kp (runAnim kp ops) k true) k false) k
      = [((runAnim kp ops).nextId + 1, ⟨k, 0, true⟩)] := by
  have hg := goodAnim_run kp ops
  refine ⟨fun k' => goodAnim_aliveFor_le_one _ hg k', ?_⟩
  have hg1 := goodAnim_animateKey kp _ k true hg
  rw [aliveTweensFor_animateKey kp _ k false hg1 hkp,
    (animateKey_present kp _ k true hkp).1]
  simp

/-- Witness for C5: from the freshly mounted driver, press then release key 5
(key ref present); exactly the release tween stays live. -/
theorem c5_witness :
    kpAll (some (5 : ℚ)) = true ∧
    aliveTweensFor (animateKey kpAll (animateKey kpAll (runAnim kpAll []) (some 5) true)
        (some 5) false) (some 5)
      = [((runAnim kpAll []).nextId + 1, ⟨some 5, 0, true⟩)] := by
  have hkp : kpAll (some (5 : ℚ)) = true := by
    simp only [kpAll, jgen, jltn, Bool.and_eq_true, decide_eq_true_eq]
    norm_num
  exact ⟨hkp, (c5_at_most_one_live kpAll [] (some 5) hkp).2⟩

/-! ## Claim C7: key geometry layout

Transcription of `keyProps` and `getBlackKeyOffset` from the recent revision
(`noteGap = 0.05`, `noteDepth = 8`), with the loop written as fuel recursion
carrying the loop counter `i` and the running `whiteKeyIndex`. -/

def noteGap : ℚ := 1/20

def noteDepth : ℚ := 8

/-- `[1, 4, 6, 9, 11].includes(i % 12)`. -/
def isBlackKey (i : ℕ) : Bool := ([1, 4, 6, 9, 11] : List ℕ).contains (i % 12)

/-- `getBlackKeyOffset` switch from `src/Experience.jsx`. -/
def getBlackKeyOffset (i : ℕ) : ℚ :=
  match i % 12 with
  | 1 => 1/10
  | 4 => -1/10
  | 6 => 1/10
  | 9 => -3/20
  | 11 => 0
  | _ => 0

/-- Per-key layout attributes pushed by the `keyProps` loop. -/
structure KeyProp where
  index : ℕ
  isBlack : Bool
  x : ℚ
  y : ℚ
  width : ℚ
  height : ℚ
  depth : ℚ
deriving DecidableEq, Repr

/-- The `keyProps` loop from the recent revision: `i` is the loop counter,
`w` the running `whiteKeyIndex` (incremented after each white key), and the
fuel counts the keys still to emit. -/
def keyPropsGo (i w : ℕ) : ℕ → List KeyProp
  | 0 => []
  | fuel + 1 =>
    let isBlack := isBlackKey i
    ({ index := i
       isBlack := isBlack
       x := if isBlack then ((w : ℚ) - 1/2) * (1 + noteGap) + getBlackKeyOffset i
            else (w : ℚ) * (1 + noteGap)
       y := if isBlack then 9/10 else 0
       width := if isBlack then 583/1000 else 1
       height := if isBlack then 3/4 else 1
       depth := if isBlack then noteDepth * (3/5) else noteDepth } : KeyProp) ::
      keyPropsGo (i + 1) (if isBlack then w else w + 1) fuel

/-- `keyProps`: the 88 per-key layout records. -/
def keyProps : List KeyProp := keyPropsGo 0 0 88

/-- Number of white keys among indices `< i` — the closed form of the
running `whiteKeyIndex` counter at iteration `i`. -/
def whiteCountBefore (i : ℕ) : ℕ :=
  ((List.range i).filter (fun j => !isBlackKey j)).length

/-- Closed form of the record the loop builds for key `n`. -/
def keyPropAt (n : ℕ) : KeyProp :=
  { index := n
    isBlack := isBlackKey n
    x := if isBlackKey n
         then ((whiteCountBefore n : ℚ) - 1/2) * (1 + noteGap) + getBlackKeyOffset n
         else (whiteCountBefore n : ℚ) * (1 + noteGap)
    y := if isBlackKey n then 9/10 else 0
    width := if isBlackKey n then 583/1000 else 1
    height := if isBlackKey n then 3/4 else 1
    depth := if isBlackKey n then noteDepth * (3/5) else noteDepth }

theorem whiteCountBefore_succ (i : ℕ) :
    whiteCountBefore (i + 1)
      = if isBlackKey i then whiteCountBefore i else whiteCountBefore i + 1 := by
  unfold whiteCountBefore
  rw [List.range_succ, List.filter_append]
  by_cases h : isBlackKey i <;> simp [h]

theorem whiteCountBefore_mono {i j : ℕ} (h : i ≤ j) :
    whiteCountBefore i ≤ whiteCountBefore j := by
  unfold whiteCountBefore
  exact ((List.range_sublist.mpr h).filter _).length_le

theorem whiteCountBefore_lt {i j : ℕ} (h : i < j) (hw : isBlackKey i = false) :
    whiteCountBefore i < whiteCountBefore j := by
  have h1 : whiteCountBefore (i + 1) = whiteCountBefore i + 1 := by
    rw [whiteCountBefore_succ, if_neg]
    simp [hw]
  have h2 : whiteCountBefore (i + 1) ≤ whiteCountBefore j := whiteCountBefore_mono h
  omega

/-- Indexing the loop output: position `j` of the loop started at counter `i`
with the true white count carries the closed-form record for key `i + j`. -/
theorem keyPropsGo_get (fuel : ℕ) : ∀ i j : ℕ, j < fuel →
    (keyPropsGo i (whiteCountBefore i) fuel).get? j = some (keyPropAt (i + j)) := by
  induction fuel with
  | zero => intro i j h; omega
  | succ fuel ih =>
    intro i j h
    cases j with
    | zero =>
      simp [keyPropsGo, keyPropAt]
    | succ j =>
      have hw : (if isBlackKey i then whiteCountBefore i else whiteCountBefore i + 1)
          = whiteCountBefore (i + 1) := (whiteCountBefore_succ i).symm
      simp only [keyPropsGo, List.get?_cons_succ, hw]
      rw [ih (i + 1) j (by omega)]
      have harith : i + 1 + j = i + (j + 1) := by omega
      rw [harith]

/-- The `keyProps` list holds the closed-form record at each index `< 88`. -/
theorem keyProps_get {n : ℕ} (h : n < 88) : keyProps.get? n = some (keyPropAt n) := by
  have h0 : whiteCountBefore 0 = 0 := rfl
  have := keyPropsGo_get 88 0 n h
  rw [h0] at this
  simpa [keyProps] using this

theorem getBlackKeyOffset_table (n : ℕ) :
    getBlackKeyOffset n
      = if n % 12 = 1 then 1/10 else if n % 12 = 4 then -1/10
        else if n % 12 = 6 then 1/10 else if n % 12 = 9 then -3/20 else 0 := by
  unfold getBlackKeyOffset
  have h : n % 12 < 12 := Nat.mod_lt _ (by norm_num)
  rcases (show n % 12 = 0 ∨ n % 12 = 1 ∨ n % 12 = 2 ∨ n % 12 = 3 ∨ n % 12 = 4 ∨ n % 12 = 5 ∨
      n % 12 = 6 ∨ n % 12 = 7 ∨ n % 12 = 8 ∨ n % 12 = 9 ∨ n % 12 = 10 ∨ n % 12 = 11 by
        omega) with h | h | h | h | h | h | h | h | h | h | h | h <;> rw [h] <;> norm_num

/-- **C7.** For every key index in `[0,88)`: the key is classified black iff
`i % 12 ∈ {1,4,6,9,11}`; white keys sit at `whiteKeyCount * (1 + gap)` and
black keys at `(whiteKeyCount - 0.5) * (1 + gap) + blackOffset(i % 12)` with
the counter equal to the number of white keys before `i`; the offset table is
`{1: +0.1, 4: -0.1, 6: +0.1, 9: -0.15, 11: 0, default: 0}`; and white-key
x-coordinates are strictly increasing in `i` among white keys. -/
theorem c7_key_layout (i j : ℕ) (p q : KeyProp) (hi : i < 88) (hj : j < 88) :
    (keyProps.get? i = some p →
      ((p.isBlack = true ↔
          (i % 12 = 1 ∨ i % 12 = 4 ∨ i % 12 = 6 ∨ i % 12 = 9 ∨ i % 12 = 11)) ∧
       p.x = (if p.isBlack
              then ((whiteCountBefore i : ℚ) - 1/2) * (1 + noteGap) + getBlackKeyOffset i
              else (whiteCountBefore i : ℚ) * (1 + noteGap)) ∧
       getBlackKeyOffset i
         = (if i % 12 = 1 then 1/10 else if i % 12 = 4 then -1/10
            else if i % 12 = 6 then 1/10 else if i % 12 = 9 then -3/20 else 0))) ∧
    (keyProps.get? i = some p → keyProps.get? j = some q →
      i < j → p.isBlack = false → q.isBlack = false → p.x < q.x) := by
  constructor
  · intro hp
    rw [keyProps_get hi] at hp
    obtain rfl : keyPropAt i = p := Option.some.inj hp
    refine ⟨?_, ?_, getBlackKeyOffset_table i⟩
    · show isBlackKey i = true ↔ _
      unfold isBlackKey
      simp [List.contains]
    · show (keyPropAt i).x = _
      unfold keyPropAt
      rfl
  · intro hp hq hij hpb hqb
    rw [keyProps_get hi] at hp
    rw [keyProps_get hj] at hq
    obtain rfl : keyPropAt i = p := Option.some.inj hp
    obtain rfl : keyPropAt j = q := Option.some.inj hq
    have hbi : isBlackKey i = false := hpb
    have hbj : isBlackKey j = false := hqb
    show (keyPropAt i).x < (keyPropAt j).x
    unfold keyPropAt
    simp only [hbi, hbj, Bool.false_eq_true, if_false]
    have hcnt : whiteCountBefore i < whiteCountBefore j := whiteCountBefore_lt hij hbi
    have hpos : (0 : ℚ) < 1 + noteGap := by norm_num [noteGap]
    have hcast : (whiteCountBefore i : ℚ) < (whiteCountBefore j : ℚ) := by
      exact_mod_cast hcnt
    exact mul_lt_mul_of_pos_right hcast hpos

/-- Witness for C7 at keys 1 (black, C#0) and at white keys 0 and 2. -/
theorem c7_witness :
    (keyProps.get? 1 = some (keyPropAt 1)) ∧
    ((keyPropAt 1).isBlack = true ↔
      (1 % 12 = 1 ∨ 1 % 12 = 4 ∨ 1 % 12 = 6 ∨ 1 % 12 = 9 ∨ 1 % 12 = 11)) ∧
    ((keyPropAt 0).isBlack = false → (keyPropAt 2).isBlack = false →
      (keyPropAt 0).x < (keyPropAt 2).x) := by
  have h1 : keyProps.get? 1 = some (keyPropAt 1) := keyProps_get (by norm_num)
  have h0 : keyProps.get? 0 = some (keyPropAt 0) := keyProps_get (by norm_num)
  have h2 : keyProps.get? 2 = some (keyPropAt 2) := keyProps_get (by norm_num)
  refine ⟨h1, ?_, ?_⟩
  · exact ((c7_key_layout 1 2 (keyPropAt 1) (keyPropAt 2) (by norm_num) (by norm_num)).1 h1).1
  · intro hb0 hb2
    exact (c7_key_layout 0 2 (keyPropAt 0) (keyPropAt 2) (by norm_num) (by norm_num)).2
      h0 h2 (by norm_num) hb0 hb2

/-! ## Claim C8: malformed MIDI messages

The handler is wrapped in `try/catch`, so it never propagates an exception
(`onMIDIMessageRaw` is total, and a non-array `event.data` is swallowed by
the `catch`).  But "leaves PressedSet unchanged" fails: the recent revision's
range check `if (keyIndex < 0 || keyIndex >= 88) return` is not NaN-safe —
both comparisons are false for `NaN` — so a note-on whose note byte is
non-numeric reaches `onKeyDown(NaN)`, whose identical inverted check also
passes, and `NaN` is inserted into `pressedKeys`.  (The earlier revision's
check `keyIndex >= 0 && keyIndex < 88` correctly discards `NaN`.)  A
truncated 2-byte note-off `[128, note]` also mutates the set: the missing
velocity is only consulted on the note-on side. -/

/-- State for the second C8 evaluation: key 39 held. -/
def sC8 : ExpState := { pressed := {some 39}, lastT := fun _ => 0, anim := initAnim }

/-- **C8 (code bug).** Evaluating the handler at malformed messages: a
note-on with a non-numeric note byte (`[144, NaN, 100]`) inserts the `NaN`
key index into PressedSet, and a wrong-length note-off (`[128, 60]`) erases
key 39 — both contradict "leaves PressedSet unchanged".  (No exception is
thrown in either case; the model is a total function.) -/
theorem c8_malformed_changes_pressed :
    initExp.pressed = ∅ ∧
    (onMIDIMessage kpAll initExp 100 [some 144, none, some 100]).pressed = {none} ∧
    sC8.pressed = {some 39} ∧
    (onMIDIMessage kpAll sC8 100 [some 128, some 60]).pressed = ∅ := by
  refine ⟨rfl, ?_, rfl, ?_⟩
  · simp only [onMIDIMessage, List.getD_cons_zero, List.getD_cons_succ, jsub,
      Option.map_none', jltn, jgen, Bool.or_self, Bool.false_eq_true, if_false]
    rw [if_neg (show ¬((100 : ℚ) - initExp.lastT none < 10) by norm_num [initExp])]
    simp only [jeqn, jgtn, Bool.and_eq_true, decide_eq_true_eq, Option.some.injEq,
      eq_self_iff_true]
    rw [if_pos ⟨trivial, by norm_num⟩]
    simp only [onKeyDown, jltn, jgen, Bool.or_self, Bool.false_eq_true, if_false]
    simp [initExp]
  · simp only [onMIDIMessage, List.getD_cons_zero, List.getD_cons_succ, List.getD_nil, jsub,
      Option.map_some']
    rw [jltn_false (show (0 : ℚ) ≤ 60 - 21 by norm_num),
      jgen_false (show (60 : ℚ) - 21 < 88 by norm_num)]
    simp only [Bool.or_self, Bool.false_eq_true, if_false]
    rw [if_neg (show ¬((100 : ℚ) - sC8.lastT (some (60 - 21)) < 10) by norm_num [sC8])]
    simp only [jeqn, jgtn, Bool.and_eq_true, Bool.or_eq_true, decide_eq_true_eq,
      Option.some.injEq]
    rw [if_neg (show ¬((128 : ℚ) = 144 ∧ false = true) by simp)]
    rw [if_pos (Or.inl trivial)]
    rw [onKeyUp_pressed kpAll _ (show (0 : ℚ) ≤ 60 - 21 by norm_num)
      (show (60 : ℚ) - 21 < 88 by norm_num)]
    dsimp only
    have h39 : (some ((60 : ℚ) - 21)) = (some (39 : ℚ)) := by norm_num
    rw [h39]
    simp [sC8]

/-! ## Device session manager (recent revision): `setupMIDI`, `onstatechange`,
effect cleanup

Ports are identified by their `id`.  `handlers` is the set of port ids whose
`onmidimessage` currently is the pipeline handler; `activeInputs` is the
`activeInputs.current` registry; `midiAccessSet` records whether the local
`midiAccess` variable of the effect has been assigned (it is assigned by the
continuation after `await navigator.requestMIDIAccess()` resolves). -/

/-- A MIDI port as `onstatechange` sees it: id, type, connection state. -/
structure Port where
  id : ℕ
  isInput : Bool
  connected : Bool

/-- Session-level state of the recent revision. -/
structure SessionState where
  exp : ExpState
  handlers : Finset ℕ
  activeInputs : Finset ℕ
  stateChangeHooked : Bool
  midiAccessSet : Bool

/-- State at effect start: nothing subscribed, request still pending. -/
def initSession : SessionState :=
  { exp := initExp
    handlers := ∅
    activeInputs := ∅
    stateChangeHooked := false
    midiAccessSet := false }

/-- `handleInput(input)`: set the port's `onmidimessage` and register its id,
unless the id is already registered (idempotent subscribe). -/
def handleInput (s : SessionState) (pid : ℕ) : SessionState :=
  if pid ∈ s.activeInputs then s
  else { s with handlers := insert pid s.handlers, activeInputs := insert pid s.activeInputs }

/-- The continuation of `setupMIDI` after the device-access promise resolves
with input ports `inputs`: assign `midiAccess`, subscribe every current
input, hook `onstatechange`.  No liveness flag is consulted — the recent
revision runs this in full even when the cleanup has already executed. -/
def resolveAccess (s : SessionState) (inputs : List ℕ) : SessionState :=
  let s2 := inputs.foldl handleInput { s with midiAccessSet := true }
  { s2 with stateChangeHooked := true }

/-- The `onstatechange` callback of the recent revision: an input port
reported connected goes through `handleInput`; an input port reported
disconnected only has its id removed from `activeInputs` — its
`onmidimessage` property is left assigned. -/
def onstatechange (s : SessionState) (p : Port) : SessionState :=
  if p.isInput then
    (if p.connected then handleInput s p.id
     else { s with activeInputs := s.activeInputs.erase p.id })
  else s

/-- Kill every stored animation and reset the handle map
(`Object.values(animationsRef.current).forEach(a => a?.kill());
animationsRef.current = {}`).  On every reachable driver state each live
tween is the one its key's handle stores (`GoodAnim`), so killing the stored
handles kills every live tween; the model marks all tweens dead. -/
def killAllAnims (a : AnimDriver) : AnimDriver :=
  { nextId := a.nextId
    tweens := a.tweens.map (fun p => (p.1, { p.2 with alive := false }))
    handle := fun _ => none }

/-- The effect cleanup of the recent revision: if `midiAccess` was assigned,
null `onmidimessage` on each port currently in `midiAccess.inputs`
(`currentInputs` — the browser's map at cleanup time); kill all stored
animations; clear `activeInputs`.  Total: tearing down with the request
still pending does not throw. -/
def cleanup (s : SessionState) (currentInputs : List ℕ) : SessionState :=
  let s1 := if s.midiAccessSet
            then { s with handlers := currentInputs.foldl (fun h pid => h.erase pid) s.handlers }
            else s
  { s1 with
    exp := { s1.exp with anim := killAllAnims s1.exp.anim }
    activeInputs := ∅ }

/-- Environment model of message delivery: the browser fires `onmidimessage`
only on a connected input port with the handler assigned; the handler is the
pipeline's `onMIDIMessage`. -/
def deliverMessage (kp : JSVal → Bool) (s : SessionState) (p : Port) (now : ℚ)
    (data : List JSVal) : SessionState :=
  if p.isInput && p.connected && decide (p.id ∈ s.handlers) then
    { s with exp := onMIDIMessage kp s.exp now data }
  else s

/-! ## Claim C9: hot-plug detach -/

/-- **C9.** Processing a detach (`state === "disconnected"`) event for an
input port revokes its registration — the id leaves `activeInputs`, so a
later reattach re-subscribes exactly once — and, the port being disconnected,
no message from it reaches the pipeline any more; the component state is
untouched: PressedSet keeps every held key and no release event is
synthesized (neither the store nor the animation driver is invoked). -/
theorem c9_detach_keeps_pressed (kp : JSVal → Bool) (s : SessionState) (p : Port)
    (hin : p.isInput = true) (hdis : p.connected = false) :
    (onstatechange s p).exp = s.exp ∧
    (onstatechange s p).exp.pressed = s.exp.pressed ∧
    (onstatechange s p).activeInputs = s.activeInputs.erase p.id ∧
    (∀ (now : ℚ) (data : List JSVal),
      deliverMessage kp (onstatechange s p) p now data = onstatechange s p) := by
  have hs : onstatechange s p = { s with activeInputs := s.activeInputs.erase p.id } := by
    unfold onstatechange
    rw [if_pos hin, if_neg]
    simp [hdis]
  rw [hs]
  refine ⟨rfl, rfl, rfl, ?_⟩
  intro now data
  unfold deliverMessage
  rw [if_neg]
  simp [hdis]

/-- Session with port 7 subscribed and key 39 held, for the C9 witness. -/
def sC9 : SessionState :=
  { exp := sC8
    handlers := {7}
    activeInputs := {7}
    stateChangeHooked := true
    midiAccessSet := true }

/-- Witness for C9: detaching input port 7 while key 39 is held keeps key 39
pressed, deregisters port 7, and a message on the detached port is inert. -/
theorem c9_witness :
    (onstatechange sC9 ⟨7, true, false⟩).exp.pressed = sC9.exp.pressed ∧
    (onstatechange sC9 ⟨7, true, false⟩).activeInputs = sC9.activeInputs.erase 7 ∧
    deliverMessage kpAll (onstatechange sC9 ⟨7, true, false⟩) ⟨7, true, false⟩ 100
        [some 144, some 60, some 80]
      = onstatechange sC9 ⟨7, true, false⟩ := by
  have h := c9_detach_keeps_pressed kpAll sC9 ⟨7, true, false⟩ rfl rfl
  exact ⟨h.2.1, h.2.2.1, h.2.2.2 100 [some 144, some 60, some 80]⟩

/-! ## Claim C6: teardown with a pending device-access request

The earlier revision guards its continuation with `let isMounted = true` /
`if (!isMounted) return`; the recent revision has no such flag.  If the
cleanup runs while `requestMIDIAccess()` is pending (`midiAccess` still
unassigned, so the cleanup skips the unsubscribe loop, kills the stored
animations and clears the registry — without throwing), the later-resumed
continuation still subscribes every input and hooks `onstatechange`,
leaving live subscriptions after teardown. -/

/-- Earlier-revision session state: `isMounted` is the liveness flag,
`accessStored` is `midiAccessRef.current`. -/
structure M1State where
  isMounted : Bool
  handlers : Finset ℕ
  stateChangeHooked : Bool
  accessStored : Bool

def m1Init : M1State := ⟨true, ∅, false, false⟩

/-- Earlier revision's continuation: checks the liveness flag before touching
any state. -/
def m1Resolve (s : M1State) (inputs : List ℕ) : M1State :=
  if s.isMounted = false then s
  else { s with
         accessStored := true
         handlers := inputs.foldl (fun h i => insert i h) s.handlers
         stateChangeHooked := true }

/-- Earlier revision's cleanup: drop the flag, null the subscribed handlers,
clear `onstatechange` if the access object was stored. -/
def m1Teardown (s : M1State) : M1State :=
  { s with
    isMounted := false
    handlers := ∅
    stateChangeHooked := if s.accessStored then false else s.stateChangeHooked }

/-- The earlier revision's liveness flag works: a continuation resumed after
teardown subscribes nothing and mutates nothing. -/
theorem m1_resolve_after_teardown (inputs : List ℕ) :
    m1Resolve (m1Teardown m1Init) inputs = m1Teardown m1Init := by
  unfold m1Resolve
  rw [if_pos (show (m1Teardown m1Init).isMounted = false from rfl)]

/-- **C6 (code bug).** In the recent revision, tearing down while the
device-access request is pending does not throw and the cleanup itself kills
the stored animations and clears the registries — but the resumed
continuation checks no liveness flag: resolving afterwards with input port 7
subscribes it (`onmidimessage` set, id registered, `onstatechange` hooked),
so live subscriptions remain after teardown, contradicting the claim. -/
theorem c6_teardown_race :
    (cleanup initSession []).handlers = ∅ ∧
    (cleanup initSession []).activeInputs = ∅ ∧
    (resolveAccess (cleanup initSession []) [7]).handlers = {7} ∧
    (resolveAccess (cleanup initSession []) [7]).activeInputs = {7} ∧
    (resolveAccess (cleanup initSession []) [7]).stateChangeHooked = true := by
  refine ⟨rfl, rfl, ?_, ?_, rfl⟩ <;>
    simp [resolveAccess, cleanup, handleInput, initSession]

end MidiPiano
